import Mathlib

/-!
Shallow embedding of the `cartpole_torch` repository (files `config.py`,
`state.py`, `system.py`, `discreditizer.py`, `history.py`,
`learning_context.py`) over an arbitrary linear ordered field `α` with a
floor function.  Machine floats are modelled by exact field arithmetic;
`torch.sin` / `torch.cos` and the constant `pi` are opaque data carried in a
`Trig` record, since every claim under study is about the structure of the
computation and not about analytic properties of the trigonometric functions.
-/

namespace CartPoleTorch

variable {α : Type*} [LinearOrderedField α] [FloorRing α]

/-- Python exceptions raised by the embedded code: `ValueError` (raised
explicitly by `state.py`, `system.py`, `learning_context.py`),
`AttributeError` (access to a missing dataclass attribute) and
`RuntimeError` (raised by `torch.linspace` on a negative step count). -/
inductive PyError where
  | valueError
  | attributeError
  | runtimeError
deriving DecidableEq

/-- Opaque model of the trigonometric primitives and the constant `pi`
(`numpy.pi` in `state.py`, `torch.pi` in `discreditizer.py`,
`torch.sin`/`torch.cos` in `system.py`). -/
structure Trig (α : Type*) where
  sinf : α → α
  cosf : α → α
  piv : α

/-- `config.py` : `SystemParameters` — physical constants of the system. -/
structure SystemParameters (α : Type*) where
  pole_length : α
  pole_mass : α
  gravity : α

/-- `config.py` : `SystemLimits`.  Note: the source dataclass declares exactly
these three fields; in particular it has no `max_abs_angular_velocity`. -/
structure SystemLimits (α : Type*) where
  max_abs_position : α
  max_abs_velocity : α
  max_abs_acceleration : α

/-- `config.py` : `SystemConfiguration`, exactly as declared in the source:
`parameters`, `limits`, `input_timestep`, `dynamics_steps_per_input`
and nothing else (no `discretization` field). -/
structure SystemConfiguration (α : Type*) where
  parameters : SystemParameters α
  limits : SystemLimits α
  input_timestep : α
  dynamics_steps_per_input : Nat

/-- Modelled from the spec: the discretization-resolution configuration
object that `system.py`, `discreditizer.py` and `learning_context.py`
read as `config.discretization.*` but that is missing from
`src/config.py`.  Fields per dimension hold the point counts used as the
`steps` arguments of `torch.linspace` (Python `int`, so negative values are
representable), and `input_time` is the input rate in Hz; per the spec the
two representations must agree: `inputRateHz = 1/input_timestep`. -/
structure DiscretizationResolution (α : Type*) where
  cart_position : Int
  pole_angle : Int
  cart_velocity : Int
  pole_angular_velocity : Int
  cart_acceleration : Int
  input_time : α

/-- The configuration actually consumed by the integrators and the
discreditizer: the `SystemConfiguration` of `config.py` extended with the
spec-modelled `discretization` member and with the angular-velocity limit
(`limits.max_abs_angular_velocity`, read by `discreditizer.py` but likewise
absent from the source `SystemLimits`). -/
structure FullConfig (α : Type*) where
  parameters : SystemParameters α
  limits : SystemLimits α
  max_abs_angular_velocity : α
  input_timestep : α
  dynamics_steps_per_input : Nat
  discretization : DiscretizationResolution α

/-- A length-4 column vector: the `DoubleTensor([x, th, v, w])` holding
(cart position, pole angle, cart velocity, angular velocity).  Row indices
0..3 of the source tensors map to the four fields in order. -/
structure Vec4 (α : Type*) where
  x : α
  th : α
  v : α
  w : α
deriving DecidableEq

instance : Add (Vec4 α) :=
  ⟨fun a b => ⟨a.x + b.x, a.th + b.th, a.v + b.v, a.w + b.w⟩⟩

/-- Tensor-scalar multiplication `t * dt`. -/
instance : HMul (Vec4 α) α (Vec4 α) :=
  ⟨fun a c => ⟨a.x * c, a.th * c, a.v * c, a.w * c⟩⟩

/-- Tensor-scalar division `t / 2`. -/
instance : HDiv (Vec4 α) α (Vec4 α) :=
  ⟨fun a c => ⟨a.x / c, a.th / c, a.v / c, a.w / c⟩⟩

theorem Vec4.add_def (a b : Vec4 α) :
    a + b = ⟨a.x + b.x, a.th + b.th, a.v + b.v, a.w + b.w⟩ := rfl

theorem Vec4.hmul_def (a : Vec4 α) (c : α) :
    a * c = ⟨a.x * c, a.th * c, a.v * c, a.w * c⟩ := rfl

theorem Vec4.hdiv_def (a : Vec4 α) (c : α) :
    a / c = ⟨a.x / c, a.th / c, a.v / c, a.w / c⟩ := rfl

/-- Python's float modulo `x % m`: a true (sign-of-divisor) modulo,
`x - m * ⌊x / m⌋`. -/
def pymod (x m : α) : α := x - m * ⌊x / m⌋

/-- `state.py` : `State` — the four-component state of the system. -/
structure State (α : Type*) where
  cart_position : α
  pole_angle : α
  cart_velocity : α
  angular_velocity : α
deriving DecidableEq

/-- The `State` constructor including `__post_init__`, which performs
`self.pole_angle %= 2 * pi` immediately on construction. -/
def mkState (tr : Trig α) (p a v w : α) : State α :=
  ⟨p, pymod a (2 * tr.piv), v, w⟩

/-- `state.py` : `State.home()` — the all-zero state.  (Python constructs
`State(0, 0, 0, 0)`; `0 % (2*pi) = 0`, so the stored fields are all zero.) -/
def State.home : State α := ⟨0, 0, 0, 0⟩

/-- `state.py` : `State.as_tensor()` — the state as a length-4 tensor in the
fixed order (position, angle, velocity, angular velocity). -/
def State.as_tensor (s : State α) : Vec4 α :=
  ⟨s.cart_position, s.pole_angle, s.cart_velocity, s.angular_velocity⟩

/-- `state.py` : `State.from_collection` applied to a length-4 tensor (the
length check `len(arr) != 4` always passes on a `Vec4`, so no error case
arises here); the constructor then normalizes the angle via
`__post_init__`. -/
def State.fromVec (tr : Trig α) (s : Vec4 α) : State α :=
  mkState tr s.x s.th s.v s.w

/-- `system.py` : the inner `__compute_derivative` of
`CartPoleSystem.advance_one_step`:
`delta = [state[2], state[3], u, -1.5 / pole_len * (u*cos(ang) + grav*sin(ang))]`. -/
def computeDerivative (tr : Trig α) (pole_len grav u : α) (state : Vec4 α) :
    Vec4 α :=
  let ang := state.th
  ⟨state.v, state.w, u, -1.5 / pole_len * (u * tr.cosf ang + grav * tr.sinf ang)⟩

/-- One iteration of the integration loop of `advance_one_step`:
`t1 = f(cur); t2 = f(cur + t1*dt); cur += (t1 + t2) / 2 * dt`. -/
def dynamicsSubstep (tr : Trig α) (pole_len grav dt u : α) (cur : Vec4 α) :
    Vec4 α :=
  let t1 := computeDerivative tr pole_len grav u cur
  let t2 := computeDerivative tr pole_len grav u (cur + t1 * dt)
  cur + (t1 + t2) / (2 : α) * dt

/-- `system.py` : the sub-timestep
`dt = 1 / (steps * self.config.discretization.input_time)` (identical in
`advance_one_step` and `get_new_positions`). -/
def dtSub (cfg : FullConfig α) : α :=
  1 / ((cfg.dynamics_steps_per_input : α) * cfg.discretization.input_time)

/-- The integration loop of `advance_one_step` on the raw state tensor:
`dynamics_steps_per_input` iterations of the two-stage update with the same
constant input. -/
def advanceVec (tr : Trig α) (cfg : FullConfig α) (u : α) (s0 : Vec4 α) :
    Vec4 α :=
  (fun s => dynamicsSubstep tr cfg.parameters.pole_length cfg.parameters.gravity
    (dtSub cfg) u s)^[cfg.dynamics_steps_per_input] s0

/-- `history.py` : `HistoryEntry`. -/
structure HistoryEntry (α : Type*) where
  timestamp : α
  current_input : α
  state : State α
deriving DecidableEq

/-- `system.py` : `CartPoleSystem` (its `history` field is the `entries`
list of `SystemHistory`; `add_entry` appends one `HistoryEntry`). -/
structure CartPoleSystem (α : Type*) where
  config : FullConfig α
  current_state : State α
  target_state : State α
  simulation_time : α
  history : List (HistoryEntry α)

/-- `system.py` : `CartPoleSystem.advance_one_step`.  Runs the integration
loop on `current_state.as_tensor()`, appends
`(simulation_time, best_input, self.current_state)` to the history — note
the source passes `self.current_state` *before* reassigning it — then sets
`current_state = State.from_collection(cur_st)` (normalizing the angle) and
adds `1 / config.discretization.input_time` to `simulation_time`. -/
def advance_one_step (tr : Trig α) (sys : CartPoleSystem α) (best_input : α) :
    CartPoleSystem α :=
  let cur := advanceVec tr sys.config best_input sys.current_state.as_tensor
  { sys with
    history := sys.history ++ [⟨sys.simulation_time, best_input, sys.current_state⟩]
    current_state := State.fromVec tr cur
    simulation_time :=
      sys.simulation_time + 1 / sys.config.discretization.input_time }

/-- `system.py` : `CartPoleSystem.advance_to`.  Raises `ValueError` when
`target_time < simulation_time`; otherwise runs
`while simulation_time < target_time: advance_one_step(best_input)`.
Since each loop iteration adds the fixed increment
`1 / input_time` to `simulation_time`, the while loop is modelled by its
iteration count `⌈(target_time - simulation_time) * input_time⌉⁺`; the
theorem for this operation proves that this count realizes exactly the
loop semantics (stop at the first iterate whose time reaches the target)
whenever the increment is positive. -/
def advance_to (tr : Trig α) (sys : CartPoleSystem α) (target_time best_input : α) :
    Except PyError (CartPoleSystem α) :=
  if target_time < sys.simulation_time then
    .error .valueError
  else
    .ok ((fun s => advance_one_step tr s best_input)^[
      (⌈(target_time - sys.simulation_time) *
        sys.config.discretization.input_time⌉).toNat] sys)

/-- `system.py` : the inner `__compute_derivative` of
`CartPoleMultiSystem.get_new_positions`, column-wise: the `vstack` of the
rows `state[2]`, `state[3]`, `inputs`,
`-1.5 / pole_len * (inputs*cos(ang) + grav*sin(ang))`, where all tensor
operations act elementwise across the `N` columns. -/
def multiComputeDerivative {n : Nat} (tr : Trig α) (pole_len grav : α)
    (inputs : Fin n → α) (state : Fin n → Vec4 α) : Fin n → Vec4 α :=
  fun j =>
    ⟨(state j).v, (state j).w, inputs j,
      -1.5 / pole_len *
        (inputs j * tr.cosf (state j).th + grav * tr.sinf (state j).th)⟩

/-- One iteration of the integration loop of `get_new_positions` on the
whole batch. -/
def multiSubstep {n : Nat} (tr : Trig α) (pole_len grav dt : α)
    (inputs : Fin n → α) (cur : Fin n → Vec4 α) : Fin n → Vec4 α :=
  let t1 := multiComputeDerivative tr pole_len grav inputs cur
  let t2 := multiComputeDerivative tr pole_len grav inputs
    (fun j => cur j + t1 j * dt)
  fun j => cur j + (t1 j + t2 j) / (2 : α) * dt

/-- `system.py` : `CartPoleMultiSystem.get_new_positions` — the identical
scheme applied to a `4×N` batch with per-column inputs; no history is
recorded and no angle normalization is applied to the result. -/
def get_new_positions {n : Nat} (tr : Trig α) (cfg : FullConfig α)
    (inputs : Fin n → α) (states : Fin n → Vec4 α) : Fin n → Vec4 α :=
  (fun st => multiSubstep tr cfg.parameters.pole_length cfg.parameters.gravity
    (dtSub cfg) inputs st)^[cfg.dynamics_steps_per_input] states

/-- `torch.linspace(a, b, n)` for `n ≥ 0`: `n` points
`a + (b - a) * i / (n - 1)`; both endpoints are included when `n ≥ 2`, and
the single point of a one-point grid is `a` (the division by zero junk value
`0` in Lean agrees with torch's boundary behavior here). -/
def linspace (a b : α) (n : Nat) : List α :=
  (List.range n).map fun (i : Nat) => a + (b - a) * (i : α) / ((n : α) - 1)

/-- `torch.linspace` with a Python-int step count: raises `RuntimeError`
when the count is negative, otherwise yields the grid. -/
def linspaceE (a b : α) (n : Int) : Except PyError (List α) :=
  if n < 0 then .error .runtimeError else .ok (linspace a b n.toNat)

/-- `torch.meshgrid(..., indexing="ij")` over four axes followed by
`flatten` of each component and `vstack`: the list of all `4`-columns in
row-major order (first axis outermost, last axis varying fastest). -/
def meshFlatten (xs ths xds tds : List α) : List (Vec4 α) :=
  xs.flatMap fun x => ths.flatMap fun t => xds.flatMap fun v =>
    tds.map fun w => ⟨x, t, v, w⟩

/-- `discreditizer.py` : the `Discreditizer` after `__post_init__`:
the input grid and the flattened `4×M` state lattice. -/
structure Discreditizer (α : Type*) where
  cart_accelerations : List α
  all_states : List (Vec4 α)
deriving DecidableEq

/-- `discreditizer.py` : `Discreditizer.__post_init__`, building the five
`torch.linspace` grids in source order and then the meshgrid lattice.
The source performs no validation of limits or counts: the only failure
channel is `torch.linspace` itself, which rejects a negative step count. -/
def discreditizerInit (tr : Trig α) (cfg : FullConfig α) :
    Except PyError (Discreditizer α) := do
  let xs ← linspaceE (-cfg.limits.max_abs_position)
    cfg.limits.max_abs_position cfg.discretization.cart_position
  let thetas ← linspaceE 0 (2 * tr.piv) cfg.discretization.pole_angle
  let xdots ← linspaceE (-cfg.limits.max_abs_velocity)
    cfg.limits.max_abs_velocity cfg.discretization.cart_velocity
  let thetadots ← linspaceE (-cfg.max_abs_angular_velocity)
    cfg.max_abs_angular_velocity cfg.discretization.pole_angular_velocity
  let accels ← linspaceE (-cfg.limits.max_abs_acceleration)
    cfg.limits.max_abs_acceleration cfg.discretization.cart_acceleration
  .ok ⟨accels, meshFlatten xs thetas xdots thetadots⟩

/-- `discreditizer.py` : `Discreditizer.space_size` — the number of columns
of the lattice. -/
def Discreditizer.space_size (d : Discreditizer α) : Nat :=
  d.all_states.length

/-- Modelled from the spec: `MultiSystemState` (imported by
`learning_context.py` from `state.py` but absent from the source file) —
the `4×N` batch of independently evolving states, built by `from_batch`
which materializes the lattice columns selected by an index tensor. -/
structure MultiSystemState (α : Type*) where
  states : List (Vec4 α)
deriving DecidableEq

/-- Modelled from the spec: `MultiSystemState.from_batch` — column `j` of
the new batch is column `batch[j]` of `all_states`. -/
def MultiSystemState.from_batch (allStates : List (Vec4 α))
    (batch : List Nat) : MultiSystemState α :=
  ⟨batch.map fun i => allStates.getD i ⟨0, 0, 0, 0⟩⟩

/-- `learning_context.py` : `MultiSystemLearningContext` (the two cost
functions are opaque callables). -/
structure MultiSystemLearningContext (α : Type*) where
  states_cost_fn : List (Vec4 α) → List α
  inputs_cost_fn : List α → List α
  config : FullConfig α
  batch_state : MultiSystemState α
  discreditizer : Discreditizer α

/-- `learning_context.py` : `MultiSystemLearningContext.update_batch`.
Raises `ValueError` unless `0 < batch_size <= total_states`; otherwise the
uniform draw `rand` from `[0,1)` (one sample per batch element, modelled as
an explicit argument) is scaled by `total_states` and truncated to integer
indices (`.long()` truncates toward zero, which on the nonnegative samples
is the floor), and the selected lattice columns become the new batch. -/
def update_batch (ctx : MultiSystemLearningContext α) (batch_size : Int)
    (rand : List α) : Except PyError (MultiSystemLearningContext α) :=
  let total_states : Int := ctx.discreditizer.space_size
  if ¬ (0 < batch_size ∧ batch_size ≤ total_states) then
    .error .valueError
  else
    let batch : List Nat :=
      rand.map fun r => (⌊r * ((ctx.discreditizer.space_size : Nat) : α)⌋).toNat
    .ok { ctx with
      batch_state :=
        MultiSystemState.from_batch ctx.discreditizer.all_states batch }

/-- The attribute names of the `SystemConfiguration` dataclass as declared
in `src/config.py`. -/
def systemConfigurationFields : List String :=
  ["parameters", "limits", "input_timestep", "dynamics_steps_per_input"]

/-- Model of Python attribute lookup on a dataclass instance: reading the
listed attribute names in program order succeeds until the first name that
is not a declared field, at which point an `AttributeError` is raised. -/
def runConfigReads (fields : List String) : List String → Except PyError Unit
  | [] => .ok ()
  | nm :: rest =>
    if fields.contains nm then runConfigReads fields rest
    else .error .attributeError

/-- The attribute names read on `self.config` by
`CartPoleSystem.advance_one_step` (`system.py` lines 77–82), in evaluation
order: `dynamics_steps_per_input`, then `discretization` (line 79), then
`parameters` twice. -/
def advanceOneStepConfigReads : List String :=
  ["dynamics_steps_per_input", "discretization", "parameters", "parameters"]

/-- The attribute names read on `self.config` by
`Discreditizer.__post_init__` (`discreditizer.py` lines 19–48), in
evaluation order: for each of the five `torch.linspace` calls except the
angle grid, `limits` twice then `discretization`; the angle grid reads only
`discretization`. -/
def discreditizerConfigReads : List String :=
  ["limits", "limits", "discretization",
   "discretization",
   "limits", "limits", "discretization",
   "limits", "limits", "discretization",
   "limits", "limits", "discretization"]

/-- The derivative of a state `(x, th, v, w)` as the specification states
it: `(v, w, u, -(3/(2*pole_length)) * (u*cos(th) + gravity*sin(th)))`. -/
def derivClaim (tr : Trig α) (pole_len grav u : α) (s : Vec4 α) : Vec4 α :=
  ⟨s.v, s.w, u,
    -(3 / (2 * pole_len)) * (u * tr.cosf s.th + grav * tr.sinf s.th)⟩

/-- One step of the explicit midpoint (RK2/Heun) scheme as the
specification states it: `k1 = f(s)`, `k2 = f(s + k1*dt)`,
`s' = s + (k1 + k2)/2 * dt`. -/
def midpointStep (f : Vec4 α → Vec4 α) (dt : α) (s : Vec4 α) : Vec4 α :=
  let k1 := f s
  let k2 := f (s + k1 * dt)
  s + (k1 + k2) / (2 : α) * dt

/-- A concrete rational model of the trigonometric primitives, agreeing
with the real functions at angle `0` (`sin 0 = 0`, `cos 0 = 1`), with a
rational stand-in for `pi`. -/
def trQ : Trig ℚ := ⟨fun _ => 0, fun _ => 1, 3⟩

/-- A concrete configuration: pole length 2, gravity 10, one dynamics step
per input, input rate 1 Hz. -/
def cfgQ1 : FullConfig ℚ :=
  ⟨⟨2, 1, 10⟩, ⟨1, 1, 1⟩, 1, 1, 1, ⟨1, 1, 1, 1, 1, 1⟩⟩

/-- A concrete system at the home state under `cfgQ1`. -/
def sysQ1 : CartPoleSystem ℚ :=
  ⟨cfgQ1, State.home, ⟨0, 3, 0, 0⟩, 0, []⟩

/-- A concrete system under `cfgQ1` whose pole has angular velocity `-1`. -/
def sysQ2 : CartPoleSystem ℚ :=
  ⟨cfgQ1, ⟨0, 0, 0, -1⟩, ⟨0, 3, 0, 0⟩, 0, []⟩

/-- A concrete configuration with `input_timestep = 1/100`,
`discretization.input_time = 100` (the two representations agree) and 10
dynamics steps per input. -/
def cfgQ3 : FullConfig ℚ :=
  ⟨⟨2, 1, 10⟩, ⟨1, 1, 1⟩, 1, 1/100, 10, ⟨1, 1, 1, 1, 1, 100⟩⟩

/-- A concrete system at the home state under `cfgQ3`. -/
def sysQ3 : CartPoleSystem ℚ :=
  ⟨cfgQ3, State.home, ⟨0, 3, 0, 0⟩, 0, []⟩

/-- A concrete configuration with zero dynamics sub-steps and input rate
1 Hz, under which one outer step advances the clock by one second. -/
def cfgQ5 : FullConfig ℚ :=
  ⟨⟨2, 1, 10⟩, ⟨1, 1, 1⟩, 1, 1, 0, ⟨1, 1, 1, 1, 1, 1⟩⟩

/-- A concrete system at the home state under `cfgQ5`. -/
def sysQ5 : CartPoleSystem ℚ :=
  ⟨cfgQ5, State.home, ⟨0, 3, 0, 0⟩, 0, []⟩

/-- A concrete configuration whose angle grid has two points (so that the
grid is `[0, 2*pi]`) and whose other grids have a single point each. -/
def cfgQ7 : FullConfig ℚ :=
  ⟨⟨2, 1, 10⟩, ⟨1, 1, 1⟩, 1, 1, 1, ⟨1, 2, 1, 1, 1, 1⟩⟩

/-- A concrete configuration with two points in every state grid. -/
def cfgQ7b : FullConfig ℚ :=
  ⟨⟨2, 1, 10⟩, ⟨1, 1, 1⟩, 1, 1, 1, ⟨2, 2, 2, 2, 2, 1⟩⟩

/-- A concrete configuration whose position limit is negative (and whose
point counts are all positive). -/
def cfgQ8 : FullConfig ℚ :=
  ⟨⟨2, 1, 10⟩, ⟨-1, 1, 1⟩, 1, 1, 1, ⟨1, 1, 1, 1, 1, 1⟩⟩

/-- A concrete learning context over a two-column lattice. -/
def ctxQ9 : MultiSystemLearningContext ℚ :=
  ⟨fun _ => [], fun _ => [], cfgQ1, ⟨[]⟩,
    ⟨[-1, 1], [⟨0, 0, 0, 0⟩, ⟨1, 2, 3, 4⟩]⟩⟩

/-- The discreditizer value built from `cfgQ7` (two angle grid points). -/
def dQ7 : Discreditizer ℚ :=
  ⟨linspace (-cfgQ7.limits.max_abs_acceleration)
      cfgQ7.limits.max_abs_acceleration 1,
    meshFlatten
      (linspace (-cfgQ7.limits.max_abs_position)
        cfgQ7.limits.max_abs_position 1)
      (linspace 0 (2 * trQ.piv) 2)
      (linspace (-cfgQ7.limits.max_abs_velocity)
        cfgQ7.limits.max_abs_velocity 1)
      (linspace (-cfgQ7.max_abs_angular_velocity)
        cfgQ7.max_abs_angular_velocity 1)⟩

/-- The discreditizer value built from `cfgQ7b` (two points per grid). -/
def dQ7b : Discreditizer ℚ :=
  ⟨linspace (-cfgQ7b.limits.max_abs_acceleration)
      cfgQ7b.limits.max_abs_acceleration 2,
    meshFlatten
      (linspace (-cfgQ7b.limits.max_abs_position)
        cfgQ7b.limits.max_abs_position 2)
      (linspace 0 (2 * trQ.piv) 2)
      (linspace (-cfgQ7b.limits.max_abs_velocity)
        cfgQ7b.limits.max_abs_velocity 2)
      (linspace (-cfgQ7b.max_abs_angular_velocity)
        cfgQ7b.max_abs_angular_velocity 2)⟩

/-- The discreditizer value built from `cfgQ8` (negative position limit). -/
def dQ8 : Discreditizer ℚ :=
  ⟨linspace (-cfgQ8.limits.max_abs_acceleration)
      cfgQ8.limits.max_abs_acceleration 1,
    meshFlatten
      (linspace (-cfgQ8.limits.max_abs_position)
        cfgQ8.limits.max_abs_position 1)
      (linspace 0 (2 * trQ.piv) 1)
      (linspace (-cfgQ8.limits.max_abs_velocity)
        cfgQ8.limits.max_abs_velocity 1)
      (linspace (-cfgQ8.max_abs_angular_velocity)
        cfgQ8.max_abs_angular_velocity 1)⟩

theorem pymod_eq_sub_floor_mul (x m : α) : pymod x m = x - (⌊x / m⌋ : α) * m := by
  unfold pymod; ring

theorem pymod_nonneg (x m : α) (hm : 0 < m) : 0 ≤ pymod x m := by
  rw [pymod_eq_sub_floor_mul]
  exact Int.sub_floor_div_mul_nonneg x hm

theorem pymod_lt (x m : α) (hm : 0 < m) : pymod x m < m := by
  rw [pymod_eq_sub_floor_mul]
  exact Int.sub_floor_div_mul_lt x hm

theorem pymod_add_int_mul (x m : α) (hm : m ≠ 0) (k : ℤ) :
    pymod (x + m * k) m = pymod x m := by
  unfold pymod
  have h1 : (x + m * k) / m = x / m + k := by
    field_simp
    ring
  rw [h1, Int.floor_add_int]
  push_cast
  ring

theorem computeDerivative_eq_derivClaim (tr : Trig α) (pole_len grav u : α)
    (s : Vec4 α) :
    computeDerivative tr pole_len grav u s = derivClaim tr pole_len grav u s := by
  unfold computeDerivative derivClaim
  have h : (-1.5 : α) / pole_len = -(3 / (2 * pole_len)) := by
    norm_num
    rw [neg_div, div_div]
  rw [h]

/-- C1: `advance_one_step` with input `u` performs exactly
`dynamics_steps_per_input` iterations of the explicit midpoint scheme
`k1 = f(state)`, `k2 = f(state + k1*dt)`, `state' = state + (k1+k2)/2*dt`,
where `f (x, th, v, w) = (v, w, u, -(3/(2*pole_length))*(u*cos th + gravity*sin th))`,
with the same constant input `u` in every sub-step; the system's new state
is the (angle-normalized) result of that iteration. -/
theorem advance_one_step_is_midpoint (tr : Trig α) (sys : CartPoleSystem α)
    (u : α) :
    (∀ (cfg : FullConfig α) (s : Vec4 α),
      advanceVec tr cfg u s =
        (midpointStep
          (derivClaim tr cfg.parameters.pole_length cfg.parameters.gravity u)
          (dtSub cfg))^[cfg.dynamics_steps_per_input] s) ∧
    (advance_one_step tr sys u).current_state =
      State.fromVec tr
        ((midpointStep
          (derivClaim tr sys.config.parameters.pole_length
            sys.config.parameters.gravity u)
          (dtSub sys.config))^[sys.config.dynamics_steps_per_input]
          sys.current_state.as_tensor) := by
  have key : ∀ (cfg : FullConfig α) (s : Vec4 α),
      advanceVec tr cfg u s =
        (midpointStep
          (derivClaim tr cfg.parameters.pole_length cfg.parameters.gravity u)
          (dtSub cfg))^[cfg.dynamics_steps_per_input] s := by
    intro cfg s
    unfold advanceVec
    have hfun : (fun t => dynamicsSubstep tr cfg.parameters.pole_length
        cfg.parameters.gravity (dtSub cfg) u t) =
        midpointStep
          (derivClaim tr cfg.parameters.pole_length cfg.parameters.gravity u)
          (dtSub cfg) := by
      funext t
      simp only [dynamicsSubstep, midpointStep, computeDerivative_eq_derivClaim]
    rw [hfun]
  refine ⟨key, ?_⟩
  show State.fromVec tr (advanceVec tr sys.config u sys.current_state.as_tensor) = _
  rw [key]

/-- C3: each call to `advance_one_step` advances `simulation_time` by
exactly `input_timestep` seconds, and each sub-step uses the sub-timestep
`dt_sub = 1/(steps * inputRateHz) = input_timestep / dynamics_steps_per_input`,
given the spec's agreement requirement `inputRateHz = 1/input_timestep`. -/
theorem advance_one_step_time (tr : Trig α) (sys : CartPoleSystem α) (u : α)
    (hagree : sys.config.discretization.input_time = 1 / sys.config.input_timestep) :
    (advance_one_step tr sys u).simulation_time =
      sys.simulation_time + sys.config.input_timestep ∧
    dtSub sys.config =
      sys.config.input_timestep / (sys.config.dynamics_steps_per_input : α) ∧
    advance_one_step tr sys u =
      { sys with
        history := sys.history ++ [⟨sys.simulation_time, u, sys.current_state⟩]
        current_state := State.fromVec tr
          ((fun s => dynamicsSubstep tr sys.config.parameters.pole_length
            sys.config.parameters.gravity
            (sys.config.input_timestep / (sys.config.dynamics_steps_per_input : α))
            u s)^[sys.config.dynamics_steps_per_input]
            sys.current_state.as_tensor)
        simulation_time := sys.simulation_time + sys.config.input_timestep } := by
  have hdt : dtSub sys.config =
      sys.config.input_timestep / (sys.config.dynamics_steps_per_input : α) := by
    unfold dtSub
    rw [hagree, mul_one_div, one_div_div]
  have htime : sys.simulation_time + 1 / sys.config.discretization.input_time =
      sys.simulation_time + sys.config.input_timestep := by
    rw [hagree, one_div_one_div]
  refine ⟨htime, hdt, ?_⟩
  unfold advance_one_step advanceVec
  rw [hdt, htime]

/-- Witness for the time-advance theorem at the concrete configuration
`cfgQ3` (`input_timestep = 1/100`, `input_time = 100 Hz`, 10 sub-steps). -/
theorem advance_one_step_time_witness :
    cfgQ3.discretization.input_time = 1 / cfgQ3.input_timestep ∧
    ((advance_one_step trQ sysQ3 0).simulation_time =
      sysQ3.simulation_time + sysQ3.config.input_timestep ∧
    dtSub sysQ3.config =
      sysQ3.config.input_timestep / (sysQ3.config.dynamics_steps_per_input : ℚ) ∧
    advance_one_step trQ sysQ3 0 =
      { sysQ3 with
        history := sysQ3.history ++ [⟨sysQ3.simulation_time, 0, sysQ3.current_state⟩]
        current_state := State.fromVec trQ
          ((fun s => dynamicsSubstep trQ sysQ3.config.parameters.pole_length
            sysQ3.config.parameters.gravity
            (sysQ3.config.input_timestep / (sysQ3.config.dynamics_steps_per_input : ℚ))
            0 s)^[sysQ3.config.dynamics_steps_per_input]
            sysQ3.current_state.as_tensor)
        simulation_time := sysQ3.simulation_time + sysQ3.config.input_timestep }) :=
  ⟨by norm_num [cfgQ3],
    advance_one_step_time trQ sysQ3 0 (by norm_num [sysQ3, cfgQ3])⟩

/-- C4: every constructed `State` has `pole_angle ∈ [0, 2*pi)`: the
constructor normalizes with a sign-correct modulo, so every input angle
(negative ones included, and the state produced by `advance_one_step`)
lands in `[0, 2*pi)`, and angles that differ by `2*pi*k` normalize to the
same value. -/
theorem state_angle_normalized (tr : Trig α) (hpi : 0 < tr.piv) :
    (∀ p a v w : α, 0 ≤ (mkState tr p a v w).pole_angle ∧
      (mkState tr p a v w).pole_angle < 2 * tr.piv) ∧
    (∀ (a : α) (k : ℤ),
      pymod (a + 2 * tr.piv * k) (2 * tr.piv) = pymod a (2 * tr.piv)) ∧
    (∀ (sys : CartPoleSystem α) (u : α),
      0 ≤ (advance_one_step tr sys u).current_state.pole_angle ∧
      (advance_one_step tr sys u).current_state.pole_angle < 2 * tr.piv) := by
  have h2pi : 0 < 2 * tr.piv := by linarith
  refine ⟨fun p a v w => ⟨pymod_nonneg a _ h2pi, pymod_lt a _ h2pi⟩,
    fun a k => pymod_add_int_mul a _ (ne_of_gt h2pi) k,
    fun sys u => ?_⟩
  show 0 ≤ pymod _ (2 * tr.piv) ∧ pymod _ (2 * tr.piv) < 2 * tr.piv
  exact ⟨pymod_nonneg _ _ h2pi, pymod_lt _ _ h2pi⟩

/-- Witness for the angle-normalization theorem at the concrete rational
trig model `trQ` (with `pi` modelled by `3`). -/
theorem state_angle_normalized_witness :
    0 < trQ.piv ∧
    ((∀ p a v w : ℚ, 0 ≤ (mkState trQ p a v w).pole_angle ∧
      (mkState trQ p a v w).pole_angle < 2 * trQ.piv) ∧
    (∀ (a : ℚ) (k : ℤ),
      pymod (a + 2 * trQ.piv * k) (2 * trQ.piv) = pymod a (2 * trQ.piv)) ∧
    (∀ (sys : CartPoleSystem ℚ) (u : ℚ),
      0 ≤ (advance_one_step trQ sys u).current_state.pole_angle ∧
      (advance_one_step trQ sys u).current_state.pole_angle < 2 * trQ.piv)) :=
  ⟨by norm_num [trQ], state_angle_normalized trQ (by norm_num [trQ])⟩

/-- C10: the `SystemConfiguration` dataclass of `config.py` declares no
`discretization` field, while both `Discreditizer.__post_init__` and
`CartPoleSystem.advance_one_step` read `config.discretization.*` before
producing any result, so with the repository's own configuration type both
operations raise an `AttributeError` and neither can succeed. -/
theorem src_config_missing_discretization :
    systemConfigurationFields.contains "discretization" = false ∧
    runConfigReads systemConfigurationFields advanceOneStepConfigReads =
      .error .attributeError ∧
    runConfigReads systemConfigurationFields discreditizerConfigReads =
      .error .attributeError := by
  refine ⟨rfl, rfl, rfl⟩

/-- C6 (divergence of the code from the claim): at the concrete system
`sysQ1` (home state, one sub-step, unit rate) with input `1`,
`advance_one_step` appends a history entry holding the *pre-step* state
(the home state), while the state reached after the integration is
`(1/2, 45/8, 1, -3/4) ≠ home`; so the appended entry's state is not the
state reached after this outer step. -/
theorem advance_one_step_records_prestep_state :
    (advance_one_step trQ sysQ1 1).history =
      [⟨0, 1, State.home⟩] ∧
    (advance_one_step trQ sysQ1 1).current_state =
      ⟨1/2, 45/8, 1, -3/4⟩ ∧
    (advance_one_step trQ sysQ1 1).current_state ≠ State.home := by
  refine ⟨?_, ?_, ?_⟩ <;>
    norm_num [advance_one_step, advanceVec, dtSub, dynamicsSubstep,
      computeDerivative, State.fromVec, mkState, pymod, State.as_tensor,
      State.home, sysQ1, cfgQ1, trQ, Vec4.add_def, Vec4.hmul_def,
      Vec4.hdiv_def, Function.iterate_one, HistoryEntry.mk.injEq,
      State.mk.injEq]

theorem multiSubstep_apply {n : Nat} (tr : Trig α) (pole_len grav dt : α)
    (inputs : Fin n → α) (cur : Fin n → Vec4 α) (j : Fin n) :
    multiSubstep tr pole_len grav dt inputs cur j =
      dynamicsSubstep tr pole_len grav dt (inputs j) (cur j) := rfl

theorem iterate_pointwise {n : Nat} {β : Type*} (F : (Fin n → β) → Fin n → β)
    (g : Fin n → β → β) (hF : ∀ st j, F st j = g j (st j)) :
    ∀ (k : Nat) (st : Fin n → β) (j : Fin n), F^[k] st j = (g j)^[k] (st j) := by
  intro k
  induction k with
  | zero => intro st j; rfl
  | succ k ih =>
    intro st j
    rw [Function.iterate_succ_apply, Function.iterate_succ_apply, ih, hF]

/-- Each column of the batched integrator evolves exactly as the
single-system integration loop under that column's input. -/
theorem get_new_positions_apply {n : Nat} (tr : Trig α) (cfg : FullConfig α)
    (inputs : Fin n → α) (states : Fin n → Vec4 α) (j : Fin n) :
    get_new_positions tr cfg inputs states j =
      advanceVec tr cfg (inputs j) (states j) := by
  unfold get_new_positions advanceVec
  exact iterate_pointwise _
    (fun j' s => dynamicsSubstep tr cfg.parameters.pole_length
      cfg.parameters.gravity (dtSub cfg) (inputs j') s)
    (fun st j' => multiSubstep_apply tr _ _ _ inputs st j')
    cfg.dynamics_steps_per_input states j

/-- C2 counterexample: at the concrete system `sysQ2` (angle `0`, angular
velocity `-1`, one sub-step of length `1`) with input `0`, the batched
integrator applied to the size-1 batch leaves the raw angle `-1`, while
`advance_one_step` stores the normalized angle `5 = -1 mod 2*pi`; the two
successor states do not have the same four components. -/
theorem batch_single_angle_mismatch :
    (get_new_positions trQ cfgQ1 (fun _ : Fin 1 => 0)
      (fun _ => sysQ2.current_state.as_tensor) 0).th = -1 ∧
    (advance_one_step trQ sysQ2 0).current_state.pole_angle = 5 ∧
    (get_new_positions trQ cfgQ1 (fun _ : Fin 1 => 0)
      (fun _ => sysQ2.current_state.as_tensor) 0).th ≠
      (advance_one_step trQ sysQ2 0).current_state.pole_angle := by
  have hb := get_new_positions_apply trQ cfgQ1 (fun _ : Fin 1 => 0)
    (fun _ => sysQ2.current_state.as_tensor) 0
  refine ⟨?_, ?_, ?_⟩ <;>
    first
      | (rw [hb]
         norm_num [advance_one_step, advanceVec, dtSub, dynamicsSubstep,
           computeDerivative, State.fromVec, mkState, pymod, State.as_tensor,
           sysQ2, cfgQ1, trQ, Vec4.add_def, Vec4.hmul_def, Vec4.hdiv_def,
           Function.iterate_one])
      | norm_num [advance_one_step, advanceVec, dtSub, dynamicsSubstep,
          computeDerivative, State.fromVec, mkState, pymod, State.as_tensor,
          sysQ2, cfgQ1, trQ, Vec4.add_def, Vec4.hmul_def, Vec4.hdiv_def,
          Function.iterate_one]

/-- C2 (amended): the batched integrator on a batch of size 1 produces the
raw (un-normalized) successor vector of the single-system integration loop:
position, velocity and angular velocity agree exactly with
`advance_one_step`, while the single-system path additionally normalizes
the angle, so the stored single-system angle is the batch angle modulo
`2*pi` (the claim's exact four-component agreement fails only on the angle
normalization). -/
theorem batch_of_one_matches_single (tr : Trig α) (sys : CartPoleSystem α)
    (u : α) :
    get_new_positions tr sys.config (fun _ : Fin 1 => u)
      (fun _ => sys.current_state.as_tensor) 0 =
      advanceVec tr sys.config u sys.current_state.as_tensor ∧
    (advance_one_step tr sys u).current_state.cart_position =
      (get_new_positions tr sys.config (fun _ : Fin 1 => u)
        (fun _ => sys.current_state.as_tensor) 0).x ∧
    (advance_one_step tr sys u).current_state.cart_velocity =
      (get_new_positions tr sys.config (fun _ : Fin 1 => u)
        (fun _ => sys.current_state.as_tensor) 0).v ∧
    (advance_one_step tr sys u).current_state.angular_velocity =
      (get_new_positions tr sys.config (fun _ : Fin 1 => u)
        (fun _ => sys.current_state.as_tensor) 0).w ∧
    (advance_one_step tr sys u).current_state.pole_angle =
      pymod (get_new_positions tr sys.config (fun _ : Fin 1 => u)
        (fun _ => sys.current_state.as_tensor) 0).th (2 * tr.piv) := by
  have h := get_new_positions_apply tr sys.config (fun _ : Fin 1 => u)
    (fun _ => sys.current_state.as_tensor) 0
  refine ⟨h, ?_, ?_, ?_, ?_⟩ <;> rw [h] <;> rfl

theorem advance_one_step_config (tr : Trig α) (sys : CartPoleSystem α)
    (u : α) : (advance_one_step tr sys u).config = sys.config := rfl

theorem iterate_advance_simulation_time (tr : Trig α) (u : α) :
    ∀ (m : Nat) (sys : CartPoleSystem α),
      ((fun s => advance_one_step tr s u)^[m] sys).config = sys.config ∧
      ((fun s => advance_one_step tr s u)^[m] sys).simulation_time =
        sys.simulation_time +
          m * (1 / sys.config.discretization.input_time) := by
  intro m
  induction m with
  | zero => intro sys; simp
  | succ m ih =>
    intro sys
    rw [Function.iterate_succ_apply']
    obtain ⟨hcfg, htime⟩ := ih sys
    constructor
    · rw [advance_one_step_config, hcfg]
    · show ((fun s => advance_one_step tr s u)^[m] sys).simulation_time +
        1 / ((fun s => advance_one_step tr s u)^[m] sys).config.discretization.input_time = _
      rw [hcfg, htime]
      push_cast
      ring

/-- C5: `advance_to(target_time, input)` raises exactly when
`target_time < simulation_time` (in the functional embedding a raise
returns only the error, so the caller's state, time and history are
untouched); when `simulation_time ≤ target_time` the result is obtained by
repeatedly applying `advance_one_step(input)`, stopping at the first
iterate whose `simulation_time` reaches `target_time`. -/
theorem advance_to_loop_semantics (tr : Trig α) (sys : CartPoleSystem α)
    (target_time u : α)
    (hpos : 0 < sys.config.discretization.input_time) :
    (advance_to tr sys target_time u = .error .valueError ↔
      target_time < sys.simulation_time) ∧
    (sys.simulation_time ≤ target_time →
      ∃ n : Nat,
        advance_to tr sys target_time u =
          .ok ((fun s => advance_one_step tr s u)^[n] sys) ∧
        target_time ≤
          ((fun s => advance_one_step tr s u)^[n] sys).simulation_time ∧
        ∀ m : Nat, m < n →
          ((fun s => advance_one_step tr s u)^[m] sys).simulation_time <
            target_time) := by
  constructor
  · unfold advance_to
    by_cases h : target_time < sys.simulation_time
    · simp [h]
    · simp [h]
  · intro hle
    have hnotlt : ¬ target_time < sys.simulation_time := not_lt.mpr hle
    set it := sys.config.discretization.input_time with hit
    set c : ℤ := ⌈(target_time - sys.simulation_time) * it⌉ with hc
    have hcnonneg : 0 ≤ c := by
      rw [hc]
      exact Int.ceil_nonneg (mul_nonneg (by linarith) (le_of_lt hpos))
    refine ⟨c.toNat, ?_, ?_, ?_⟩
    · unfold advance_to
      rw [if_neg hnotlt]
    · obtain ⟨-, htime⟩ :=
        iterate_advance_simulation_time tr u c.toNat sys
      rw [htime]
      have hcast : ((c.toNat : ℕ) : α) = (c : α) := by
        rw [← Int.cast_natCast, Int.toNat_of_nonneg hcnonneg]
      rw [hcast]
      have hle2 : (target_time - sys.simulation_time) * it ≤ (c : α) := by
        rw [hc]; exact Int.le_ceil _
      have hdiv : target_time - sys.simulation_time ≤ (c : α) * (1 / it) := by
        rw [mul_one_div, le_div_iff hpos]
        linarith
      linarith
    · intro m hm
      obtain ⟨-, htime⟩ := iterate_advance_simulation_time tr u m sys
      rw [htime]
      have hmc : ((m : ℕ) : ℤ) < c := Int.lt_toNat.mp hm
      have hmlt : (m : α) < (target_time - sys.simulation_time) * it := by
        have := Int.lt_ceil.mp (hc ▸ hmc)
        exact_mod_cast this
      have hdiv : (m : α) * (1 / it) < target_time - sys.simulation_time := by
        rw [mul_one_div, div_lt_iff hpos]
        linarith
      linarith

theorem exceptBind_ok {ε : Type u} {β γ : Type v} (a : β)
    (f : β → Except ε γ) : (Except.ok a >>= f : Except ε γ) = f a := rfl

theorem exceptBind_error {ε : Type u} {β γ : Type v} (e : ε)
    (f : β → Except ε γ) :
    (Except.error e >>= f : Except ε γ) = Except.error e := rfl

theorem length_flatMap_const {β γ : Type*} (l : List β) (f : β → List γ)
    (m : Nat) (h : ∀ b ∈ l, (f b).length = m) :
    (l.flatMap f).length = l.length * m := by
  induction l with
  | nil => simp
  | cons a l ih =>
    rw [List.flatMap_cons, List.length_append, h a (List.mem_cons_self a l),
      ih (fun b hb => h b (List.mem_cons_of_mem a hb)), List.length_cons]
    ring

theorem flatMap_const_getElem? {β γ : Type*} (l : List β) (f : β → List γ)
    (m : Nat) (h : ∀ b ∈ l, (f b).length = m) :
    ∀ j : Nat, j < l.length * m →
      (l.flatMap f)[j]? = l[j / m]?.bind fun b => (f b)[j % m]? := by
  induction l with
  | nil => intro j hj; simp at hj
  | cons a l ih =>
    intro j hj
    have hm : 0 < m := by
      rcases Nat.eq_zero_or_pos m with h0 | h0
      · rw [h0, Nat.mul_zero] at hj; exact absurd hj (Nat.not_lt_zero j)
      · exact h0
    rw [List.flatMap_cons, List.getElem?_append, h a (List.mem_cons_self a l)]
    by_cases hcase : j < m
    · rw [if_pos hcase, Nat.div_eq_of_lt hcase, Nat.mod_eq_of_lt hcase,
        List.getElem?_cons_zero, Option.some_bind]
    · rw [if_neg hcase]
      push_neg at hcase
      have hj' : j - m < l.length * m := by
        rw [List.length_cons, Nat.succ_mul] at hj
        omega
      rw [ih (fun b hb => h b (List.mem_cons_of_mem a hb)) (j - m) hj',
        Nat.div_eq_sub_div hm hcase, Nat.mod_eq_sub_mod hcase,
        List.getElem?_cons_succ]

theorem linspace_length (a b : α) (n : Nat) : (linspace a b n).length = n := by
  unfold linspace
  simp

theorem linspace_getElem? (a b : α) (n i : Nat) (hi : i < n) :
    (linspace a b n)[i]? = some (a + (b - a) * (i : α) / ((n : α) - 1)) := by
  unfold linspace
  rw [List.getElem?_map, List.getElem?_range hi]
  rfl

theorem linspace_mem_Icc (a b : α) (n : Nat) (hab : a ≤ b) :
    ∀ x ∈ linspace a b n, a ≤ x ∧ x ≤ b := by
  intro x hx
  unfold linspace at hx
  simp only [List.mem_map, List.mem_range] at hx
  obtain ⟨i, hi, rfl⟩ := hx
  by_cases hn : n ≤ 1
  · have hi0 : i = 0 := by omega
    subst hi0
    simp [hab]
  · push_neg at hn
    have h2n : (2 : α) ≤ (n : α) := by exact_mod_cast hn
    have hden : (0 : α) < (n : α) - 1 := by linarith
    have hnum0 : (0 : α) ≤ (b - a) * (i : α) :=
      mul_nonneg (by linarith) (by positivity)
    have hfrac0 : (0 : α) ≤ (b - a) * (i : α) / ((n : α) - 1) :=
      div_nonneg hnum0 (le_of_lt hden)
    have hile : (i : α) ≤ (n : α) - 1 := by
      have : (i : α) + 1 ≤ (n : α) := by exact_mod_cast Nat.succ_le_of_lt hi
      linarith
    have hmul : (b - a) * (i : α) ≤ (b - a) * ((n : α) - 1) :=
      mul_le_mul_of_nonneg_left hile (by linarith)
    have hfrac1 : (b - a) * (i : α) / ((n : α) - 1) ≤ b - a := by
      rw [div_le_iff₀ hden]
      linarith
    constructor <;> linarith

theorem linspace_last (a b : α) (n : Nat) (hn : 2 ≤ n) :
    (linspace a b n)[n - 1]? = some b := by
  rw [linspace_getElem? a b n (n - 1) (by omega)]
  have h1n : 1 ≤ n := by omega
  have hcast : ((n - 1 : ℕ) : α) = (n : α) - 1 := by
    rw [Nat.cast_sub h1n, Nat.cast_one]
  have hden : ((n : α) - 1) ≠ 0 := by
    have : (2 : α) ≤ (n : α) := by exact_mod_cast hn
    linarith
  rw [hcast, mul_div_assoc, div_self hden, mul_one]
  congr 1
  ring

theorem meshFlatten_length (xs ths xds tds : List α) :
    (meshFlatten xs ths xds tds).length =
      xs.length * (ths.length * (xds.length * tds.length)) := by
  unfold meshFlatten
  rw [length_flatMap_const _ _ (ths.length * (xds.length * tds.length))]
  intro x _
  rw [length_flatMap_const _ _ (xds.length * tds.length)]
  intro t _
  rw [length_flatMap_const _ _ tds.length]
  intro v _
  simp

theorem meshFlatten_mem (xs ths xds tds : List α) (col : Vec4 α)
    (h : col ∈ meshFlatten xs ths xds tds) :
    col.x ∈ xs ∧ col.th ∈ ths ∧ col.v ∈ xds ∧ col.w ∈ tds := by
  unfold meshFlatten at h
  simp only [List.mem_flatMap, List.mem_map] at h
  obtain ⟨x, hx, t, ht, v, hv, w, hw, rfl⟩ := h
  exact ⟨hx, ht, hv, hw⟩

theorem meshFlatten_getElem? (xs ths xds tds : List α) (j : Nat)
    (hj : j < xs.length * (ths.length * (xds.length * tds.length))) :
    (meshFlatten xs ths xds tds)[j]? =
      xs[j / (ths.length * (xds.length * tds.length))]?.bind fun x =>
        ths[j % (ths.length * (xds.length * tds.length)) /
            (xds.length * tds.length)]?.bind fun t =>
          xds[j % (xds.length * tds.length) / tds.length]?.bind fun v =>
            (tds[j % tds.length]?.map fun w => (⟨x, t, v, w⟩ : Vec4 α)) := by
  have hm1pos : 0 < ths.length * (xds.length * tds.length) := by
    rcases Nat.eq_zero_or_pos (ths.length * (xds.length * tds.length)) with h0 | h0
    · rw [h0, Nat.mul_zero] at hj
      exact absurd hj (Nat.not_lt_zero j)
    · exact h0
  have hm2pos : 0 < xds.length * tds.length := by
    rcases Nat.eq_zero_or_pos (xds.length * tds.length) with h0 | h0
    · rw [h0, Nat.mul_zero] at hm1pos
      exact absurd hm1pos (lt_irrefl 0)
    · exact h0
  have hdpos : 0 < tds.length := by
    rcases Nat.eq_zero_or_pos tds.length with h0 | h0
    · rw [h0, Nat.mul_zero] at hm2pos
      exact absurd hm2pos (lt_irrefl 0)
    · exact h0
  unfold meshFlatten
  have houter : ∀ b ∈ xs,
      ((fun x => ths.flatMap fun t => xds.flatMap fun v =>
        tds.map fun w => (⟨x, t, v, w⟩ : Vec4 α)) b).length =
        ths.length * (xds.length * tds.length) := by
    intro b _
    rw [length_flatMap_const _ _ (xds.length * tds.length)]
    intro t _
    rw [length_flatMap_const _ _ tds.length]
    intro v _
    simp
  rw [flatMap_const_getElem? xs _ _ houter j hj]
  congr 1
  funext x
  have hmid : ∀ b ∈ ths,
      ((fun t => xds.flatMap fun v =>
        tds.map fun w => (⟨x, t, v, w⟩ : Vec4 α)) b).length =
        xds.length * tds.length := by
    intro t _
    rw [length_flatMap_const _ _ tds.length]
    intro v _
    simp
  rw [flatMap_const_getElem? ths _ _ hmid
    (j % (ths.length * (xds.length * tds.length)))
    (Nat.mod_lt _ hm1pos)]
  congr 1
  funext t
  have hjm2 : j % (ths.length * (xds.length * tds.length)) %
      (xds.length * tds.length) = j % (xds.length * tds.length) :=
    Nat.mod_mod_of_dvd j (dvd_mul_left _ _)
  rw [hjm2]
  have hlast : ∀ b ∈ xds,
      ((fun v => tds.map fun w => (⟨x, t, v, w⟩ : Vec4 α)) b).length =
        tds.length := by
    intro v _
    simp
  rw [flatMap_const_getElem? xds _ _ hlast (j % (xds.length * tds.length))
    (Nat.mod_lt _ hm2pos)]
  congr 1
  funext v
  have hjd : j % (xds.length * tds.length) % tds.length = j % tds.length :=
    Nat.mod_mod_of_dvd j (dvd_mul_left _ _)
  rw [hjd, List.getElem?_map]

theorem linspaceE_natCast (a b : α) (n : Nat) :
    linspaceE a b (n : Int) = .ok (linspace a b n) := by
  unfold linspaceE
  rw [if_neg (not_lt.mpr (Int.natCast_nonneg n)), Int.toNat_natCast]

theorem discreditizerInit_ok (tr : Trig α) (cfg : FullConfig α)
    (na nb nc nd nacc : Nat)
    (h1 : cfg.discretization.cart_position = (na : Int))
    (h2 : cfg.discretization.pole_angle = (nb : Int))
    (h3 : cfg.discretization.cart_velocity = (nc : Int))
    (h4 : cfg.discretization.pole_angular_velocity = (nd : Int))
    (h5 : cfg.discretization.cart_acceleration = (nacc : Int)) :
    discreditizerInit tr cfg = .ok
      ⟨linspace (-cfg.limits.max_abs_acceleration)
          cfg.limits.max_abs_acceleration nacc,
        meshFlatten
          (linspace (-cfg.limits.max_abs_position)
            cfg.limits.max_abs_position na)
          (linspace 0 (2 * tr.piv) nb)
          (linspace (-cfg.limits.max_abs_velocity)
            cfg.limits.max_abs_velocity nc)
          (linspace (-cfg.max_abs_angular_velocity)
            cfg.max_abs_angular_velocity nd)⟩ := by
  simp only [discreditizerInit, h1, h2, h3, h4, h5, linspaceE_natCast,
    exceptBind_ok]

/-- Witness for the `advance_to` loop-semantics theorem at the concrete
system `sysQ5` (unit input rate) with target time `2` and input `0`. -/
theorem advance_to_loop_semantics_witness :
    0 < sysQ5.config.discretization.input_time ∧
    ((advance_to trQ sysQ5 2 0 = .error .valueError ↔
      (2 : ℚ) < sysQ5.simulation_time) ∧
    (sysQ5.simulation_time ≤ 2 →
      ∃ n : Nat,
        advance_to trQ sysQ5 2 0 =
          .ok ((fun s => advance_one_step trQ s 0)^[n] sysQ5) ∧
        (2 : ℚ) ≤
          ((fun s => advance_one_step trQ s 0)^[n] sysQ5).simulation_time ∧
        ∀ m : Nat, m < n →
          ((fun s => advance_one_step trQ s 0)^[m] sysQ5).simulation_time <
            2)) :=
  ⟨by norm_num [sysQ5, cfgQ5],
    advance_to_loop_semantics trQ sysQ5 2 0 (by norm_num [sysQ5, cfgQ5])⟩

/-- C7 (amended): the Discreditizer builds four linearly-spaced grids —
position over `[-max_abs_position, max_abs_position]`, angle over
`[0, 2*pi]` **with the endpoint `2*pi` included** (`torch.linspace`
includes the upper endpoint, so the angle grid spans the closed interval,
not `[0, 2*pi)`), velocity and angular velocity over their symmetric
ranges, each with its configured point count — and the flattened lattice
is their full Cartesian product with position outermost and angular
velocity varying fastest, so `space_size` equals the product of the four
per-dimension counts. -/
theorem discreditizer_lattice_spec (tr : Trig α) (cfg : FullConfig α)
    (na nb nc nd nacc : Nat)
    (h1 : cfg.discretization.cart_position = (na : Int))
    (h2 : cfg.discretization.pole_angle = (nb : Int))
    (h3 : cfg.discretization.cart_velocity = (nc : Int))
    (h4 : cfg.discretization.pole_angular_velocity = (nd : Int))
    (h5 : cfg.discretization.cart_acceleration = (nacc : Int))
    (hpi : 0 < tr.piv)
    (hP : 0 ≤ cfg.limits.max_abs_position)
    (hV : 0 ≤ cfg.limits.max_abs_velocity)
    (hW : 0 ≤ cfg.max_abs_angular_velocity)
    (d : Discreditizer α)
    (hd : discreditizerInit tr cfg = .ok d) :
    d.space_size = na * (nb * (nc * nd)) ∧
    (∀ j : Nat, j < na * (nb * (nc * nd)) →
      d.all_states[j]? =
        (linspace (-cfg.limits.max_abs_position)
          cfg.limits.max_abs_position na)[j / (nb * (nc * nd))]?.bind fun x =>
          (linspace 0 (2 * tr.piv) nb)[j % (nb * (nc * nd)) /
              (nc * nd)]?.bind fun t =>
            (linspace (-cfg.limits.max_abs_velocity)
              cfg.limits.max_abs_velocity nc)[j % (nc * nd) / nd]?.bind fun v =>
              ((linspace (-cfg.max_abs_angular_velocity)
                cfg.max_abs_angular_velocity nd)[j % nd]?.map
                  fun w => (⟨x, t, v, w⟩ : Vec4 α))) ∧
    (∀ col ∈ d.all_states,
      -cfg.limits.max_abs_position ≤ col.x ∧
      col.x ≤ cfg.limits.max_abs_position ∧
      0 ≤ col.th ∧ col.th ≤ 2 * tr.piv ∧
      -cfg.limits.max_abs_velocity ≤ col.v ∧
      col.v ≤ cfg.limits.max_abs_velocity ∧
      -cfg.max_abs_angular_velocity ≤ col.w ∧
      col.w ≤ cfg.max_abs_angular_velocity) ∧
    (2 ≤ nb → (linspace 0 (2 * tr.piv) nb)[nb - 1]? = some (2 * tr.piv)) := by
  have hdeq := discreditizerInit_ok tr cfg na nb nc nd nacc h1 h2 h3 h4 h5
  rw [hd] at hdeq
  have hdval := Except.ok.inj hdeq
  subst hdval
  refine ⟨?_, ?_, ?_, fun hnb => linspace_last 0 (2 * tr.piv) nb hnb⟩
  · show (meshFlatten _ _ _ _).length = _
    rw [meshFlatten_length]
    simp [linspace_length]
  · intro j hj
    have hj' : j < (linspace (-cfg.limits.max_abs_position)
        cfg.limits.max_abs_position na).length *
        ((linspace 0 (2 * tr.piv) nb).length *
          ((linspace (-cfg.limits.max_abs_velocity)
            cfg.limits.max_abs_velocity nc).length *
            (linspace (-cfg.max_abs_angular_velocity)
              cfg.max_abs_angular_velocity nd).length)) := by
      simpa [linspace_length] using hj
    have := meshFlatten_getElem? (linspace (-cfg.limits.max_abs_position)
        cfg.limits.max_abs_position na) (linspace 0 (2 * tr.piv) nb)
        (linspace (-cfg.limits.max_abs_velocity)
          cfg.limits.max_abs_velocity nc)
        (linspace (-cfg.max_abs_angular_velocity)
          cfg.max_abs_angular_velocity nd) j hj'
    simpa [linspace_length] using this
  · intro col hcol
    obtain ⟨hx, hth, hv, hw⟩ := meshFlatten_mem _ _ _ _ col hcol
    obtain ⟨hx1, hx2⟩ := linspace_mem_Icc _ _ na (by linarith) col.x hx
    obtain ⟨ht1, ht2⟩ := linspace_mem_Icc _ _ nb (by linarith) col.th hth
    obtain ⟨hv1, hv2⟩ := linspace_mem_Icc _ _ nc (by linarith) col.v hv
    obtain ⟨hw1, hw2⟩ := linspace_mem_Icc _ _ nd (by linarith) col.w hw
    exact ⟨hx1, hx2, ht1, ht2, hv1, hv2, hw1, hw2⟩

/-- Witness for the lattice theorem at the concrete configuration
`cfgQ7b` (two points in every state grid). -/
theorem discreditizer_lattice_spec_witness :
    (cfgQ7b.discretization.cart_position = ((2 : ℕ) : Int) ∧
      cfgQ7b.discretization.pole_angle = ((2 : ℕ) : Int) ∧
      cfgQ7b.discretization.cart_velocity = ((2 : ℕ) : Int) ∧
      cfgQ7b.discretization.pole_angular_velocity = ((2 : ℕ) : Int) ∧
      cfgQ7b.discretization.cart_acceleration = ((2 : ℕ) : Int) ∧
      0 < trQ.piv ∧
      0 ≤ cfgQ7b.limits.max_abs_position ∧
      0 ≤ cfgQ7b.limits.max_abs_velocity ∧
      0 ≤ cfgQ7b.max_abs_angular_velocity ∧
      discreditizerInit trQ cfgQ7b = .ok dQ7b) ∧
    (dQ7b.space_size = 2 * (2 * (2 * 2)) ∧
    (∀ j : Nat, j < 2 * (2 * (2 * 2)) →
      dQ7b.all_states[j]? =
        (linspace (-cfgQ7b.limits.max_abs_position)
          cfgQ7b.limits.max_abs_position 2)[j / (2 * (2 * 2))]?.bind fun x =>
          (linspace 0 (2 * trQ.piv) 2)[j % (2 * (2 * 2)) /
              (2 * 2)]?.bind fun t =>
            (linspace (-cfgQ7b.limits.max_abs_velocity)
              cfgQ7b.limits.max_abs_velocity 2)[j % (2 * 2) / 2]?.bind fun v =>
              ((linspace (-cfgQ7b.max_abs_angular_velocity)
                cfgQ7b.max_abs_angular_velocity 2)[j % 2]?.map
                  fun w => (⟨x, t, v, w⟩ : Vec4 ℚ))) ∧
    (∀ col ∈ dQ7b.all_states,
      -cfgQ7b.limits.max_abs_position ≤ col.x ∧
      col.x ≤ cfgQ7b.limits.max_abs_position ∧
      0 ≤ col.th ∧ col.th ≤ 2 * trQ.piv ∧
      -cfgQ7b.limits.max_abs_velocity ≤ col.v ∧
      col.v ≤ cfgQ7b.limits.max_abs_velocity ∧
      -cfgQ7b.max_abs_angular_velocity ≤ col.w ∧
      col.w ≤ cfgQ7b.max_abs_angular_velocity) ∧
    (2 ≤ 2 → (linspace 0 (2 * trQ.piv) 2)[2 - 1]? = some (2 * trQ.piv))) :=
  ⟨⟨rfl, rfl, rfl, rfl, rfl, by norm_num [trQ], by norm_num [cfgQ7b],
      by norm_num [cfgQ7b], by norm_num [cfgQ7b],
      discreditizerInit_ok trQ cfgQ7b 2 2 2 2 2 rfl rfl rfl rfl rfl⟩,
    discreditizer_lattice_spec trQ cfgQ7b 2 2 2 2 2 rfl rfl rfl rfl rfl
      (by norm_num [trQ]) (by norm_num [cfgQ7b]) (by norm_num [cfgQ7b])
      (by norm_num [cfgQ7b]) dQ7b
      (discreditizerInit_ok trQ cfgQ7b 2 2 2 2 2 rfl rfl rfl rfl rfl)⟩

/-- C7 counterexample: with two angle grid points (`cfgQ7`, `pi` modelled
by `3`), the second lattice column's angle is exactly `2*pi`, which is not
in `[0, 2*pi)`: `torch.linspace(0, 2*pi, n)` includes the endpoint, so the
angle grid is not confined to the half-open interval the claim states. -/
theorem lattice_angle_reaches_two_pi :
    discreditizerInit trQ cfgQ7 = .ok dQ7 ∧
    (dQ7.all_states.getD 1 ⟨0, 0, 0, 0⟩).th = 2 * trQ.piv ∧
    ¬ ((dQ7.all_states.getD 1 ⟨0, 0, 0, 0⟩).th < 2 * trQ.piv) := by
  refine ⟨discreditizerInit_ok trQ cfgQ7 1 2 1 1 1 rfl rfl rfl rfl rfl,
    ?_, ?_⟩ <;>
    norm_num [dQ7, cfgQ7, trQ, linspace, meshFlatten, List.range_succ]

/-- C8 (amended): `Discreditizer` construction performs no validation of
limits or point counts: non-positive limits are accepted (no
`InvalidConfiguration` error exists in the code), a zero point count
merely yields an empty grid, and construction fails only when some point
count is negative (`torch.linspace` rejects a negative `steps` with a
`RuntimeError`). -/
theorem discreditizerInit_no_validation (tr : Trig α) (cfg : FullConfig α) :
    (discreditizerInit tr cfg).isOk = true ↔
      (0 ≤ cfg.discretization.cart_position ∧
       0 ≤ cfg.discretization.pole_angle ∧
       0 ≤ cfg.discretization.cart_velocity ∧
       0 ≤ cfg.discretization.pole_angular_velocity ∧
       0 ≤ cfg.discretization.cart_acceleration) := by
  unfold discreditizerInit linspaceE
  by_cases h1 : cfg.discretization.cart_position < 0 <;>
    by_cases h2 : cfg.discretization.pole_angle < 0 <;>
    by_cases h3 : cfg.discretization.cart_velocity < 0 <;>
    by_cases h4 : cfg.discretization.pole_angular_velocity < 0 <;>
    by_cases h5 : cfg.discretization.cart_acceleration < 0 <;>
    simp [h1, h2, h3, h4, h5, exceptBind_ok, exceptBind_error,
      Except.isOk, Except.toBool, not_lt] <;>
    omega

/-- C8 counterexample: the configuration `cfgQ8` has a non-positive
position limit, yet `Discreditizer` construction succeeds and produces a
lattice — it is not rejected with any error. -/
theorem discreditizer_accepts_nonpositive_limit :
    cfgQ8.limits.max_abs_position ≤ 0 ∧
    discreditizerInit trQ cfgQ8 = .ok dQ8 :=
  ⟨by norm_num [cfgQ8],
    discreditizerInit_ok trQ cfgQ8 1 1 1 1 1 rfl rfl rfl rfl rfl⟩

/-- C9: `update_batch(batch_size)` raises exactly when `batch_size ≤ 0` or
`batch_size > space_size` (only the error is returned, so the stored batch
is untouched); for `0 < batch_size ≤ space_size` it succeeds and stores a
batch of exactly `batch_size` columns, each equal to some column of the
full lattice, at indices obtained by truncating the uniform `[0,1)` draws
scaled by `space_size`. -/
theorem update_batch_spec (ctx : MultiSystemLearningContext α) (k : Int)
    (rand : List α) (hlen : rand.length = k.toNat)
    (hr : ∀ r ∈ rand, 0 ≤ r ∧ r < 1) :
    (∀ e : PyError, update_batch ctx k rand = .error e ↔
      (¬ (0 < k ∧ k ≤ (ctx.discreditizer.space_size : Int)) ∧
        e = .valueError)) ∧
    (0 < k → k ≤ (ctx.discreditizer.space_size : Int) →
      update_batch ctx k rand = .ok { ctx with
        batch_state := (MultiSystemState.from_batch
          ctx.discreditizer.all_states (rand.map fun r =>
            (⌊r * ((ctx.discreditizer.space_size : Nat) : α)⌋).toNat)) } ∧
      ∀ ctx' : MultiSystemLearningContext α,
        update_batch ctx k rand = .ok ctx' →
          ctx'.batch_state.states.length = k.toNat ∧
          ∀ s ∈ ctx'.batch_state.states,
            s ∈ ctx.discreditizer.all_states) := by
  constructor
  · intro e
    by_cases hcond : 0 < k ∧ k ≤ (ctx.discreditizer.space_size : Int)
    · simp only [update_batch, if_neg (not_not_intro hcond)]
      simp [hcond]
    · simp only [update_batch, if_pos hcond]
      simp [hcond, eq_comm]
  · intro hk1 hk2
    have hcond : 0 < k ∧ k ≤ (ctx.discreditizer.space_size : Int) := ⟨hk1, hk2⟩
    constructor
    · simp only [update_batch, if_neg (not_not_intro hcond)]
    · intro ctx' hctx'
      simp only [update_batch, if_neg (not_not_intro hcond)] at hctx'
      have hctx'' := Except.ok.inj hctx'
      subst hctx''
      constructor
      · simp [MultiSystemState.from_batch, hlen]
      · intro s hs
        simp only [MultiSystemState.from_batch, List.map_map,
          List.mem_map, Function.comp] at hs
        obtain ⟨r, hrmem, rfl⟩ := hs
        obtain ⟨hr0, hr1⟩ := hr r hrmem
        have hM : 0 < ctx.discreditizer.space_size := by
          have : (0 : Int) < (ctx.discreditizer.space_size : Int) :=
            lt_of_lt_of_le hk1 hk2
          exact_mod_cast this
        have hMα : (0 : α) < ((ctx.discreditizer.space_size : Nat) : α) := by
          exact_mod_cast hM
        have hfl0 : 0 ≤ ⌊r * ((ctx.discreditizer.space_size : Nat) : α)⌋ :=
          Int.le_floor.mpr (by
            push_cast
            exact mul_nonneg hr0 (le_of_lt hMα))
        have hflM : ⌊r * ((ctx.discreditizer.space_size : Nat) : α)⌋ <
            (ctx.discreditizer.space_size : Int) :=
          Int.floor_lt.mpr (by
            push_cast
            calc r * ((ctx.discreditizer.space_size : Nat) : α) <
                1 * ((ctx.discreditizer.space_size : Nat) : α) :=
                  mul_lt_mul_of_pos_right hr1 hMα
              _ = ((ctx.discreditizer.space_size : Nat) : α) := one_mul _)
        have hidx : (⌊r * ((ctx.discreditizer.space_size : Nat) : α)⌋).toNat <
            ctx.discreditizer.all_states.length :=
          (Int.toNat_lt hfl0).mpr hflM
        rw [List.getD_eq_getElem ctx.discreditizer.all_states ⟨0, 0, 0, 0⟩ hidx]
        exact List.getElem_mem hidx

/-- Witness for the batch-sampling theorem at the concrete context
`ctxQ9` (two lattice columns), batch size `1` and uniform draw `[1/2]`. -/
theorem update_batch_spec_witness :
    (([(1 : ℚ)/2].length = (1 : Int).toNat) ∧
      (∀ r ∈ [(1 : ℚ)/2], 0 ≤ r ∧ r < 1)) ∧
    ((∀ e : PyError, update_batch ctxQ9 1 [(1 : ℚ)/2] = .error e ↔
      (¬ ((0 : Int) < 1 ∧ (1 : Int) ≤ (ctxQ9.discreditizer.space_size : Int)) ∧
        e = .valueError)) ∧
    ((0 : Int) < 1 → (1 : Int) ≤ (ctxQ9.discreditizer.space_size : Int) →
      update_batch ctxQ9 1 [(1 : ℚ)/2] = .ok { ctxQ9 with
        batch_state := (MultiSystemState.from_batch
          ctxQ9.discreditizer.all_states ([(1 : ℚ)/2].map fun r =>
            (⌊r * ((ctxQ9.discreditizer.space_size : Nat) : ℚ)⌋).toNat)) } ∧
      ∀ ctx' : MultiSystemLearningContext ℚ,
        update_batch ctxQ9 1 [(1 : ℚ)/2] = .ok ctx' →
          ctx'.batch_state.states.length = (1 : Int).toNat ∧
          ∀ s ∈ ctx'.batch_state.states,
            s ∈ ctxQ9.discreditizer.all_states)) :=
  ⟨⟨rfl, by
      intro r hrmem
      simp only [List.mem_singleton] at hrmem
      subst hrmem
      norm_num⟩,
    update_batch_spec ctxQ9 1 [(1 : ℚ)/2] rfl (by
      intro r hrmem
      simp only [List.mem_singleton] at hrmem
      subst hrmem
      norm_num)⟩

end CartPoleTorch
